import Mathlib

/-!
Verification development for the gulp-util/newer file-freshness filter.

The definitions below are a shallow embedding of the TypeScript sources:
the synchronous implementation (class Newer: _checkOptions, _getExtraStats,
_isNewer, _bufferPush, _specialStat, _getDestStats, _transform, _flush) and
the historical promise-based implementation.  Filesystem stats and glob
expansion are modelled as oracles (functions from paths or patterns), and
JavaScript runtime values relevant to option validation are modelled by a
small value type with JavaScript truthiness.
-/

namespace GulpNewer

/-- Which stats timestamp field drives comparisons: options.ctime selects
ctime, otherwise mtime. -/
inductive TsKey where
  | mtime
  | ctime
deriving DecidableEq, Repr

/-- A filesystem stats record: the two timestamps (as integers, e.g. epoch
milliseconds) and whether the path is a directory (fs.Stats.isDirectory). -/
structure Stats where
  mtime : Int
  ctime : Int
  isDir : Bool
deriving DecidableEq, Repr

/-- Timestamp field selection on a stats record (stats[this._timestamp]). -/
def tsGet (s : Stats) : TsKey → Int
  | .mtime => s.mtime
  | .ctime => s.ctime

/-- Result of one stat call: success, ENOENT, or another error.  A
non-ENOENT error carries the path field of the thrown exception when the
exception has one (error.path). -/
inductive StatOutcome where
  | found (s : Stats)
  | enoent
  | otherErr (path : Option String)
deriving DecidableEq, Repr

/-- The filesystem metadata oracle: one immutable snapshot, mapping a path
to the outcome of stat-ing it. -/
abbrev FSModel := String → StatOutcome

/-- The glob expansion oracle: maps a pattern to the list of matching
concrete paths (glob.sync). -/
abbrev GlobModel := String → List String

/-- A vinyl source file as the engine sees it: its path relative to the
working root and its stats record (none models a file written to the stream
without stats). -/
structure SrcFile where
  relative : String
  stat : Option Stats
deriving DecidableEq, Repr

/-- Errors the engine can raise.  configErr covers the PluginError cases of
_checkOptions; extraStat the two PluginError cases of _getExtraStats;
unexpectedStat a rethrown non-ENOENT stat error; missingStats the
PluginError for a source file without stats; typeError a JavaScript
TypeError from reading a property of null or undefined. -/
inductive ConfigErrKind where
  | requiresDestOrOptions
  | destNotString
  | extNotString
  | mapNotFunction
  | requiresDestOrMap
  | extraNotStringOrArray
deriving DecidableEq, Repr

inductive NewerErr where
  | configErr (k : ConfigErrKind)
  | extraStat (path : Option String)
  | unexpectedStat (path : Option String)
  | missingStats
  | typeError
deriving DecidableEq, Repr

/-! ## JavaScript option values

The options object fields are dynamically typed at runtime; _checkOptions
inspects them with truthiness tests and typeof checks.  We model the values
that can appear there. -/

/-- A JavaScript runtime value as far as option validation observes it. -/
inductive JsVal where
  | undef
  | vnull
  | vstr (s : String)
  | vnum (n : Int)
  | vbool (b : Bool)
  | vfun (f : String → String)
  | varr (elems : List JsVal)

/-- JavaScript truthiness of a value. -/
def truthy : JsVal → Bool
  | .undef => false
  | .vnull => false
  | .vstr s => !s.isEmpty
  | .vnum n => n != 0
  | .vbool b => b
  | .vfun _ => true
  | .varr _ => true

/-- Does typeof yield the string tagged string. -/
def isStringV : JsVal → Bool
  | .vstr _ => true
  | _ => false

/-- Does typeof yield function. -/
def isFunctionV : JsVal → Bool
  | .vfun _ => true
  | _ => false

/-- Array.isArray. -/
def isArrayV : JsVal → Bool
  | .varr _ => true
  | _ => false

/-- The options object (src/types.ts): every field may be absent (undef)
or hold any runtime value. -/
structure JsOptions where
  dest : JsVal
  ext : JsVal
  map : JsVal
  extra : JsVal
  ctime : JsVal

/-- Newer._checkOptions: validation performed at construction.  The input
none models a missing or falsy options argument.  On success it returns the
options with a single extra-pattern string normalized into a one-element
array (the in-place mutation options.extra = [options.extra]). -/
def checkOptions : Option JsOptions → Except ConfigErrKind JsOptions
  | none => .error .requiresDestOrOptions
  | some o =>
    if truthy o.dest && !isStringV o.dest then .error .destNotString
    else if truthy o.ext && !isStringV o.ext then .error .extNotString
    else if truthy o.map && !isFunctionV o.map then .error .mapNotFunction
    else if !truthy o.dest && !truthy o.map then .error .requiresDestOrMap
    else if truthy o.extra then
      if isStringV o.extra then .ok { o with extra := .varr [o.extra] }
      else if !isArrayV o.extra then .error .extraNotStringOrArray
      else .ok o
    else .ok o

/-! ## Path functions (node:path, POSIX) -/

/-- Split a character sequence at every separator character, keeping empty
pieces.  Structural recursion so concrete paths evaluate in the kernel. -/
def splitOnSlash : List Char → List (List Char)
  | [] => [[]]
  | c :: rest =>
    let r := splitOnSlash rest
    if c = '/' then [] :: r
    else
      match r with
      | [] => [[c]]
      | seg :: segs => (c :: seg) :: segs

/-- The nonempty segments of a path. -/
def splitSegs (cs : List Char) : List (List Char) :=
  (splitOnSlash cs).filter (fun seg => !seg.isEmpty)

/-- Segment normalization used by path.normalize: drop dot segments,
resolve dot-dot against preceding segments (dot-dot at the root of an
absolute path disappears, leading dot-dot of a relative path is kept).
The accumulator holds already-normalized segments in reverse. -/
def normSegs (isAbs : Bool) : List (List Char) → List (List Char) → List (List Char)
  | acc, [] => acc.reverse
  | acc, seg :: rest =>
    if seg = ['.'] then normSegs isAbs acc rest
    else if seg = ['.', '.'] then
      match acc with
      | [] => if isAbs then normSegs isAbs [] rest else normSegs isAbs [['.', '.']] rest
      | top :: acc' =>
        if top = ['.', '.'] then normSegs isAbs (seg :: top :: acc') rest
        else normSegs isAbs acc' rest
    else normSegs isAbs (seg :: acc) rest

/-- Interleave a separator between segments. -/
def joinSegsChars : List (List Char) → List Char
  | [] => []
  | [s] => s
  | s :: rest => s ++ '/' :: joinSegsChars rest

/-- Is a POSIX path absolute. -/
def isAbsolutePath (p : String) : Bool :=
  match p.toList with
  | '/' :: _ => true
  | _ => false

/-- path.join for two path fragments (POSIX): concatenate with a separator
and normalize.  The result is absolute exactly when the first fragment is;
an absolute second fragment is not special, its leading separator is
swallowed by the join. -/
def pathJoin (a b : String) : String :=
  let abs := isAbsolutePath a
  let segs := normSegs abs [] (splitSegs (a.toList ++ '/' :: b.toList))
  let core := String.mk (joinSegsChars segs)
  let base := if abs then "/" ++ core else core
  let result := if segs.isEmpty && !abs then "." else base
  let bTrailing :=
    match b.toList.getLast? with
    | some '/' => true
    | _ => false
  if bTrailing && !segs.isEmpty then result ++ "/" else result

/-- The suffix of a character sequence starting at its last dot. -/
def extSuffix : List Char → Option (List Char)
  | [] => none
  | c :: rest =>
    match extSuffix rest with
    | some s => some s
    | none => if c = '.' then some (c :: rest) else none

/-- path.basename as a character list: the part after the last separator. -/
def basenameChars (p : String) : List Char :=
  match (splitOnSlash p.toList).getLast? with
  | some b => b
  | none => []

/-- path.extname: the suffix of the basename from its last dot; empty when
the basename has no dot or only a leading one. -/
def extnameStr (p : String) : String :=
  match basenameChars p with
  | [] => ""
  | _ :: rest =>
    match extSuffix rest with
    | some s => String.mk s
    | none => ""

/-- replaceExtension from the source: a falsy ext (modelled as none)
returns the file unchanged; otherwise the extname suffix is stripped from
the end and ext appended. -/
def replaceExtension (file : String) (ext : Option String) : String :=
  match ext with
  | none => file
  | some e =>
    let cs := file.toList
    let original := (extnameStr file).toList
    String.mk (cs.take (cs.length - original.length)) ++ e

/-! ## The engine configuration and per-file decision (sync version) -/

/-- The immutable fields the constructor extracts from validated options:
_dest, _ext, _map (none models the falsy values undefined and the empty
string), and _timestamp. -/
structure NewerCfg where
  dest : Option String
  ext : Option String
  map : Option (String → String)
  ts : TsKey

/-- The mutable per-run engine state: _bufferedFiles (null before lazy
allocation) and the _all latch. -/
structure EngState where
  bufferedFiles : Option (List SrcFile)
  all : Bool
deriving DecidableEq, Repr

/-- The engine state at construction. -/
def initEng : EngState := { bufferedFiles := none, all := false }

/-- The destination path _specialStat computes for one source file:
replaceExtension on the relative path, then the mapper, then path.join
with _dest when _dest is truthy. -/
def specialStatPath (cfg : NewerCfg) (relative : String) : String :=
  let destFileRelative := replaceExtension relative cfg.ext
  let destFileRelative :=
    match cfg.map with
    | some m => m destFileRelative
    | none => destFileRelative
  match cfg.dest with
  | some d => pathJoin d destFileRelative
  | none => destFileRelative

/-- Newer._specialStat: stat the computed destination path; ENOENT yields
null (pass through), any other stat error is rethrown. -/
def specialStat (cfg : NewerCfg) (fsv : FSModel) (relative : String) :
    Except NewerErr (Option Stats) :=
  match fsv (specialStatPath cfg relative) with
  | .found s => .ok (some s)
  | .enoent => .ok none
  | .otherErr p => .error (.unexpectedStat p)

/-- Newer._getDestStats: per-file resolution (an existing destination
directory, or an extension override, or a mapper) stats the computed
per-file path; otherwise shared-destination mode lazily allocates the
buffer and returns the pre-resolved destination stats. -/
def getDestStats (cfg : NewerCfg) (destStats : Option Stats) (fsv : FSModel)
    (st : EngState) (f : SrcFile) : Except NewerErr (Option Stats × EngState) :=
  let destDirectory :=
    match destStats with
    | some s => s.isDir
    | none => false
  if destDirectory || cfg.ext.isSome || cfg.map.isSome then
    (specialStat cfg fsv f.relative).map (fun d => (d, st))
  else
    .ok (destStats, { st with bufferedFiles := some (st.bufferedFiles.getD []) })

/-- Newer._isNewer, transcribed with its evaluation order: the extra-stats
comparison reads dest[ts] before the null check on dest, so with extra
stats present and a null dest it raises a TypeError instead of reaching
the null branch. -/
def isNewer (extraStats : Option Stats) (ts : TsKey) (dest : Option Stats)
    (src : Stats) : Except NewerErr Bool :=
  match extraStats with
  | some ex =>
    match dest with
    | none => .error .typeError
    | some d =>
      if tsGet ex ts > tsGet d ts then .ok true
      else .ok (decide (tsGet src ts > tsGet d ts))
  | none =>
    match dest with
    | none => .ok true
    | some d => .ok (decide (tsGet src ts > tsGet d ts))

/-- Newer._bufferPush: with the _all latch set, emit; a fresh file is
appended to the buffer when one exists (otherwise dropped); a stale file
with no buffer is emitted alone; a stale file with a buffer flushes the
buffer in order, clears it, sets the latch and emits the file. -/
def bufferPush (st : EngState) (f : SrcFile) (newer : Bool) :
    EngState × List SrcFile :=
  if st.all then (st, [f])
  else if !newer then
    match st.bufferedFiles with
    | some buf => ({ st with bufferedFiles := some (buf ++ [f]) }, [])
    | none => (st, [])
  else
    match st.bufferedFiles with
    | none => (st, [f])
    | some buf => ({ st with bufferedFiles := some [], all := true }, buf ++ [f])

/-- Newer._transform for one source file (sync version): reject a file
without stats, resolve the destination stats, decide freshness, and route
the file through _bufferPush. -/
def transformStep (cfg : NewerCfg) (destStats extraStats : Option Stats)
    (fsv : FSModel) (st : EngState) (f : SrcFile) :
    Except NewerErr (EngState × List SrcFile) :=
  match f.stat with
  | none => .error .missingStats
  | some srcStat => do
    let r ← getDestStats cfg destStats fsv st f
    let newer ← isNewer extraStats cfg.ts r.1 srcStat
    .ok (bufferPush r.2 f newer)

/-- A whole run over a finite file sequence: files are processed in order;
the first error aborts the remainder (no further emissions); end of
sequence discards any buffered files without emitting them (_flush).
Returns the emitted files in order, the final state before _flush, and the
error if one occurred. -/
def runSteps (cfg : NewerCfg) (destStats extraStats : Option Stats)
    (fsv : FSModel) : EngState → List SrcFile →
    List SrcFile × EngState × Option NewerErr
  | st, [] => ([], st, none)
  | st, f :: rest =>
    match transformStep cfg destStats extraStats fsv st f with
    | .error e => ([], st, some e)
    | .ok (st', out) =>
      let r := runSteps cfg destStats extraStats fsv st' rest
      (out ++ r.1, r.2.1, r.2.2)

/-! ## Construction: extra-dependency resolution and instance setup -/

/-- The stat loop of Newer._getExtraStats: stat each resolved extra path in
order; the first failure throws a PluginError naming the offending path
when the thrown exception carries one (an ENOENT from statSync always
does), and the unknown-error variant otherwise. -/
def statExtras (fsv : FSModel) : List String → Except NewerErr (List Stats)
  | [] => .ok []
  | p :: rest =>
    match fsv p with
    | .found s => (statExtras fsv rest).map (fun l => s :: l)
    | .enoent => .error (.extraStat (some p))
    | .otherErr q => .error (.extraStat q)

/-- The reduction loop of Newer._getExtraStats: starting from the first
record, replace the candidate whenever a later record has a strictly
greater timestamp (so the first record with the maximal timestamp wins). -/
def latestStatFold (ts : TsKey) (first : Stats) (rest : List Stats) : Stats :=
  rest.foldl (fun acc x => if tsGet x ts > tsGet acc ts then x else acc) first

/-- Newer._getExtraStats: expand each pattern, concatenate the matches,
stat them all, and reduce to the latest record.  When the patterns expand
to zero files, extraStats[0] is undefined and _extraStats ends up absent
without any error. -/
def getExtraStats (globF : GlobModel) (fsv : FSModel) (ts : TsKey)
    (patterns : List String) : Except NewerErr (Option Stats) := do
  let allFiles := (patterns.map globF).flatten
  let extraStats ← statExtras fsv allFiles
  match extraStats with
  | [] => .ok none
  | first :: rest => .ok (some (latestStatFold ts first rest))

/-- Extract the string payload of a truthy string value; the falsy empty
string yields none, matching every truthiness test the constructor applies
to _dest and _ext. -/
def truthyString : JsVal → Option String
  | .vstr s => if s.isEmpty then none else some s
  | _ => none

/-- Extract a function value. -/
def asFun : JsVal → Option (String → String)
  | .vfun f => some f
  | _ => none

/-- The glob patterns of a normalized extra array.  glob.sync requires a
string pattern and throws a TypeError otherwise; element types were not
validated by _checkOptions. -/
def extraPatterns : List JsVal → Except NewerErr (List String)
  | [] => .ok []
  | .vstr s :: rest => (extraPatterns rest).map (fun l => s :: l)
  | _ :: _ => .error .typeError

/-- The configuration record the constructor extracts from validated
options. -/
def mkCfg (o : JsOptions) : NewerCfg :=
  { dest := truthyString o.dest
    ext := truthyString o.ext
    map := asFun o.map
    ts := if truthy o.ctime then .ctime else .mtime }

/-- A fully constructed synchronous engine instance: configuration plus
the two stats computed once at construction (_destStats and _extraStats). -/
structure NewerInst where
  cfg : NewerCfg
  destStats : Option Stats
  extraStats : Option Stats

/-- The construction-time destination stat of the sync version:
statSync(dest, throwIfNoEntry false) returns undefined on ENOENT but still
throws on any other stat error. -/
def syncDestStat (cfg : NewerCfg) (fsv : FSModel) :
    Except NewerErr (Option Stats) :=
  match cfg.dest with
  | none => .ok none
  | some d =>
    match fsv d with
    | .found s => .ok (some s)
    | .enoent => .ok none
    | .otherErr p => .error (.unexpectedStat p)

/-- The full synchronous constructor: _checkOptions, field extraction, the
destination pre-stat, and _getExtraStats when options.extra is truthy. -/
def newerInit (o : Option JsOptions) (globF : GlobModel) (fsv : FSModel) :
    Except NewerErr NewerInst := do
  let o' ←
    match checkOptions o with
    | .error k => .error (.configErr k)
    | .ok o' => .ok o'
  let cfg := mkCfg o'
  let destStats ← syncDestStat cfg fsv
  let extraStats ←
    if truthy o'.extra then
      match o'.extra with
      | .varr elems => do
        let pats ← extraPatterns elems
        getExtraStats globF fsv cfg.ts pats
      | _ => .error .typeError
    else
      .ok none
  .ok { cfg := cfg, destStats := destStats, extraStats := extraStats }

/-! ## The historical promise-based implementation

The promise version defers the destination pre-stat and the extra-stats
computation: both are promises the per-file _transform waits on, so their
failures surface per file instead of at construction.  Its ENOENT recovery
handler is a plain function whose this is not the stream, so reading
_extraStats there yields undefined and the extra stats are dropped on that
path. -/

/-- The state of the destination pre-stat promise when a file is
processed. -/
inductive DestP where
  | resolved (s : Option Stats)
  | rejectedEnoent
  | rejectedOther (path : Option String)
deriving DecidableEq, Repr

/-- The promise construction of the destination pre-stat:
Q.nfcall(fs.stat, dest) when _dest is truthy, Q.resolve(null) otherwise. -/
def destProbeP (cfg : NewerCfg) (fsv : FSModel) : DestP :=
  match cfg.dest with
  | none => .resolved none
  | some d =>
    match fsv d with
    | .found s => .resolved (some s)
    | .enoent => .rejectedEnoent
    | .otherErr p => .rejectedOther p

/-- The freshness computation of the promise _transform: newer is true
when the destination stats are null or the source timestamp is greater;
the extra-stats comparison then reads destFileStats[timestamp], which on a
null destination with extra stats present raises a TypeError. -/
def isNewerPromise (dest extra : Option Stats) (ts : TsKey) (src : Stats) :
    Except NewerErr Bool :=
  match extra with
  | none =>
    match dest with
    | none => .ok true
    | some d => .ok (decide (tsGet src ts > tsGet d ts))
  | some ex =>
    match dest with
    | none => .error .typeError
    | some d => .ok (decide (tsGet src ts > tsGet d ts) || decide (tsGet ex ts > tsGet d ts))

/-- The push block of the promise _transform: same decision table as
_bufferPush (emit on the _all latch; buffer or drop a fresh file; flush,
latch and emit on a stale file with a buffer; emit a stale file alone). -/
def bufferPushPromise (st : EngState) (f : SrcFile) (newer : Bool) :
    EngState × List SrcFile :=
  if st.all then (st, [f])
  else if !newer then
    match st.bufferedFiles with
    | some buf => ({ st with bufferedFiles := some (buf ++ [f]) }, [])
    | none => (st, [])
  else
    match st.bufferedFiles with
    | some buf => ({ st with bufferedFiles := some [], all := true }, buf ++ [f])
    | none => (st, [f])

/-- The promise _transform for one file.  A rejected destination pre-stat
is observed first: a non-ENOENT rejection fails the file, an ENOENT one
takes the recovery path where both the destination and (because of the
lost this binding) the extra stats are null.  With the pre-stat resolved,
a rejected extra-stats promise fails the file; otherwise per-file
resolution stats the computed path (with the same ENOENT recovery,
dropping the extras), and shared-destination mode allocates the buffer and
compares against the pre-resolved stats. -/
def transformStepPromise (cfg : NewerCfg) (fsv : FSModel) (destP : DestP)
    (extraP : Except NewerErr (Option Stats)) (st : EngState) (f : SrcFile) :
    Except NewerErr (EngState × List SrcFile) :=
  match f.stat with
  | none => .error .missingStats
  | some srcStat =>
    match destP with
    | .rejectedOther p => .error (.unexpectedStat p)
    | .rejectedEnoent =>
      (isNewerPromise none none cfg.ts srcStat).map (bufferPushPromise st f)
    | .resolved destStats =>
      match extraP with
      | .error e => .error e
      | .ok extra =>
        let destDirectory :=
          match destStats with
          | some s => s.isDir
          | none => false
        if destDirectory || cfg.ext.isSome || cfg.map.isSome then
          match fsv (specialStatPath cfg f.relative) with
          | .found s =>
            (isNewerPromise (some s) extra cfg.ts srcStat).map (bufferPushPromise st f)
          | .enoent =>
            (isNewerPromise none none cfg.ts srcStat).map (bufferPushPromise st f)
          | .otherErr p => .error (.unexpectedStat p)
        else
          let st1 := { st with bufferedFiles := some (st.bufferedFiles.getD []) }
          (isNewerPromise destStats extra cfg.ts srcStat).map (bufferPushPromise st1 f)

/-- A whole run of the promise version, mirroring runSteps. -/
def runStepsPromise (cfg : NewerCfg) (fsv : FSModel) (destP : DestP)
    (extraP : Except NewerErr (Option Stats)) : EngState → List SrcFile →
    List SrcFile × EngState × Option NewerErr
  | st, [] => ([], st, none)
  | st, f :: rest =>
    match transformStepPromise cfg fsv destP extraP st f with
    | .error e => ([], st, some e)
    | .ok (st', out) =>
      let r := runStepsPromise cfg fsv destP extraP st' rest
      (out ++ r.1, r.2.1, r.2.2)

/-- The promise constructor: only _checkOptions can fail synchronously;
the two stats become pending promises. -/
structure PNewerInst where
  cfg : NewerCfg
  destP : DestP
  extraP : Except NewerErr (Option Stats)

def newerInitPromise (o : Option JsOptions) (globF : GlobModel)
    (fsv : FSModel) : Except NewerErr PNewerInst := do
  let o' ←
    match checkOptions o with
    | .error k => .error (.configErr k)
    | .ok o' => .ok o'
  let cfg := mkCfg o'
  let extraP : Except NewerErr (Option Stats) :=
    if truthy o'.extra then
      match o'.extra with
      | .varr elems =>
        match extraPatterns elems with
        | .error e => .error e
        | .ok pats => getExtraStats globF fsv cfg.ts pats
      | _ => .error .typeError
    else
      .ok none
  .ok { cfg := cfg, destP := destProbeP cfg fsv, extraP := extraP }

/-! ## Specification-side definitions

These follow the wording of the natural-language specification, for
comparison with the definitions transcribed from the source. -/

/-- The staleness predicate as the specification states it: the probe is
absent, or the source timestamp is strictly greater, or an extra watermark
exists, the probe was found, and the watermark is strictly greater. -/
def staleSpec (probe extra : Option Stats) (ts : TsKey) (src : Stats) : Bool :=
  match probe with
  | none => true
  | some d =>
    decide (tsGet src ts > tsGet d ts) ||
      (match extra with
       | some e => decide (tsGet e ts > tsGet d ts)
       | none => false)

/-- Staleness of a whole source file against a fixed probe (a file without
stats is never reached under the stated hypotheses). -/
def staleFile (probe extra : Option Stats) (ts : TsKey) (f : SrcFile) : Bool :=
  match f.stat with
  | some s => staleSpec probe extra ts s
  | none => false

/-- The per-file destination probe (as an optional stats record) a file
receives in per-file resolution mode. -/
def probeOpt : StatOutcome → Option Stats
  | .found s => some s
  | _ => none

/-- Is a stat outcome a non-ENOENT failure. -/
def isOtherErr : StatOutcome → Bool
  | .otherErr _ => true
  | _ => false

/-- Per-file resolution mode as the decision procedure states it: the
destination stats exist and are a directory, or an extension override or a
mapper is configured. -/
def perFileMode (cfg : NewerCfg) (destStats : Option Stats) : Bool :=
  (match destStats with
   | some s => s.isDir
   | none => false) || cfg.ext.isSome || cfg.map.isSome

/-- The destination path computation as the original claim words it: join
with the destination only when it is set, and leave an absolute mapper
result self-sufficient, not prefixed by the destination. -/
def claimedDestPathC4 (cfg : NewerCfg) (relative : String) : String :=
  let r := replaceExtension relative cfg.ext
  let r :=
    match cfg.map with
    | some m => m r
    | none => r
  match cfg.dest with
  | some d => if isAbsolutePath r then r else pathJoin d r
  | none => r

/-- The destination path computation as the amended claim words it: the
extension substitution, then the mapper, then a path.join with the
destination whenever the destination is set, including when the mapper
result is absolute (the join keeps the destination prefix). -/
def amendedDestPathC4 (cfg : NewerCfg) (relative : String) : String :=
  let r := replaceExtension relative cfg.ext
  let r :=
    match cfg.map with
    | some m => m r
    | none => r
  match cfg.dest with
  | some d => pathJoin d r
  | none => r

/-- The amended validation-failure condition: presence is JavaScript
truthiness (a falsy value such as the empty string counts as absent), and
the extra check accepts any array without validating element types. -/
def amendedFailCond : Option JsOptions → Bool
  | none => true
  | some o =>
    (truthy o.dest && !isStringV o.dest) ||
    (truthy o.ext && !isStringV o.ext) ||
    (truthy o.map && !isFunctionV o.map) ||
    (!truthy o.dest && !truthy o.map) ||
    (truthy o.extra && !isStringV o.extra && !isArrayV o.extra)

/-- The normalization the spec describes: a single truthy extra-pattern
string becomes a one-element array; everything else is untouched. -/
def normalizeExtraSpec (o : JsOptions) : JsOptions :=
  if truthy o.extra && isStringV o.extra then { o with extra := .varr [o.extra] }
  else o

/-- Is an Except value an error. -/
def isErrorB : Except ConfigErrKind JsOptions → Bool
  | .error _ => true
  | .ok _ => false

/-- The extra watermark as the specification words it: the first stat
record whose selected timestamp is greater than or equal to every record
in the list (maximal value, first-seen wins on ties). -/
def specWatermark (ts : TsKey) (l : List Stats) : Option Stats :=
  l.find? (fun x => l.all (fun y => tsGet y ts ≤ tsGet x ts))

/-! ### Concrete fixtures used by witnesses and counterexamples -/

/-- A plain-file stats record with both timestamps equal. -/
def statOf (m : Int) : Stats := { mtime := m, ctime := m, isDir := false }

/-- A source file with stats. -/
def fileOf (name : String) (m : Int) : SrcFile :=
  { relative := name, stat := some (statOf m) }

/-! ## Theorems -/

/-- Helper: bind on a successful Except value. -/
@[simp] theorem exceptBindOk {ε α β : Type} (a : α) (f : α → Except ε β) :
    (Except.ok a >>= f : Except ε β) = f a := rfl

/-- Helper: bind on a failed Except value. -/
@[simp] theorem exceptBindError {ε α β : Type} (e : ε) (f : α → Except ε β) :
    (Except.error e >>= f : Except ε β) = Except.error e := rfl

/-- C4 (amended): in per-file resolution mode the probed destination path
is the source-relative path with the extension substituted, then mapped,
then joined with the destination whenever the destination is set —
including when the mapper result is absolute, since path.join keeps the
destination prefix; only with no destination is the result left
self-sufficient. -/
theorem dest_path_join_amended (cfg : NewerCfg) (relative : String) :
    specialStatPath cfg relative = amendedDestPathC4 cfg relative := rfl

/-- C4 counterexample: with destination d and a mapper returning the
absolute path /a, the code stats d/a (path.join keeps the prefix), not the
self-sufficient /a the claim describes. -/
theorem dest_path_absolute_counterexample :
    specialStatPath { dest := some "d", ext := none, map := some (fun _ => "/a"), ts := .mtime } "x" = "d/a"
      ∧ claimedDestPathC4 { dest := some "d", ext := none, map := some (fun _ => "/a"), ts := .mtime } "x" = "/a"
      ∧ specialStatPath { dest := some "d", ext := none, map := some (fun _ => "/a"), ts := .mtime } "x"
          ≠ claimedDestPathC4 { dest := some "d", ext := none, map := some (fun _ => "/a"), ts := .mtime } "x" := by
  refine ⟨rfl, rfl, ?_⟩
  decide

/-- C10: an empty-string destination is falsy, hence treated as absent
throughout: with no mapper, construction fails with the
requires-dest-or-map ConfigurationError even though dest is a present
string; with a mapper, construction succeeds, no destination stat is taken
(the shared destination stats are null for every filesystem), and the
mapper result is probed as-is with no join prefix. -/
theorem empty_dest_treated_absent (f : String → String) (globF : GlobModel)
    (fsv : FSModel) (relative : String) :
    checkOptions (some { dest := .vstr "", ext := .undef, map := .undef, extra := .undef, ctime := .undef })
        = .error .requiresDestOrMap
      ∧ newerInit (some { dest := .vstr "", ext := .undef, map := .vfun f, extra := .undef, ctime := .undef }) globF fsv
          = .ok { cfg := { dest := none, ext := none, map := some f, ts := .mtime },
                  destStats := none, extraStats := none }
      ∧ specialStatPath { dest := none, ext := none, map := some f, ts := .mtime } relative
          = f relative := by
  exact ⟨rfl, rfl, rfl⟩

/-- C2: the code contradicts the claim and the intent of its own null
check.  _isNewer evaluates the extra-stats comparison, which reads
dest[ts], before the null check on dest; so with an extra watermark
present and an absent destination probe the decision raises a TypeError
and the run errors with no emission, instead of classifying the file stale
by the absent-destination rule and emitting it.  Shown here on a
shared-destination run whose destination stat is absent and on the
decision function itself; the spec staleness predicate classifies the same
file as stale. -/
theorem extras_absent_dest_type_error :
    isNewer (some { mtime := 300, ctime := 300, isDir := false }) .mtime none
        { mtime := 100, ctime := 100, isDir := false } = .error .typeError
      ∧ (runSteps { dest := some "dest/out", ext := none, map := none, ts := .mtime }
            none (some { mtime := 300, ctime := 300, isDir := false }) (fun _ => .enoent)
            initEng [{ relative := "f1", stat := some { mtime := 100, ctime := 100, isDir := false } }]).1 = []
      ∧ (runSteps { dest := some "dest/out", ext := none, map := none, ts := .mtime }
            none (some { mtime := 300, ctime := 300, isDir := false }) (fun _ => .enoent)
            initEng [{ relative := "f1", stat := some { mtime := 100, ctime := 100, isDir := false } }]).2.2
          = some .typeError
      ∧ staleSpec none (some { mtime := 300, ctime := 300, isDir := false }) .mtime
            { mtime := 100, ctime := 100, isDir := false } = true := by
  exact ⟨rfl, rfl, rfl, rfl⟩

/-- C6 counterexample: with extra set to a single pattern (non-empty after
normalization) that expands to zero files, construction completes without
error and with an absent extra watermark (extraStats[0] of the empty list
is undefined), contradicting the claim that an error occurs rather than an
empty watermark. -/
theorem extra_zero_matches_counterexample :
    newerInit (some { dest := .vstr "d", ext := .undef, map := .undef, extra := .vstr "p", ctime := .undef })
        (fun _ => []) (fun _ => .found { mtime := 100, ctime := 100, isDir := false })
      = .ok { cfg := { dest := some "d", ext := none, map := none, ts := .mtime },
              destStats := some { mtime := 100, ctime := 100, isDir := false },
              extraStats := none } := rfl

/-- C5 counterexample: the claim predicts success for an options record
whose destination is present and is a string with no mapper — but with the
empty string (falsy), _checkOptions raises the
requires-dest-or-map ConfigurationError, because presence is tested by
truthiness.  (The record is concrete: dest is the present string value,
every other field absent.) -/
theorem checkOptions_claim_counterexample :
    checkOptions (some { dest := .vstr "", ext := .undef, map := .undef, extra := .undef, ctime := .undef })
        = .error .requiresDestOrMap
      ∧ isStringV (.vstr "") = true := ⟨rfl, rfl⟩

/-- C5 (amended): construction fails with a ConfigurationError exactly
when the options are absent, or a truthy dest is not a string, or a truthy
ext is not a string, or a truthy map is not a function, or neither dest
nor map is truthy, or a truthy extra is neither a string nor an array
(presence means JavaScript truthiness and array element types are not
validated); in every other case validation succeeds and a truthy
extra-pattern string is normalized into a one-element array. -/
theorem checkOptions_fail_iff_amended :
    (∀ o : Option JsOptions, isErrorB (checkOptions o) = amendedFailCond o)
      ∧ (∀ o : JsOptions, amendedFailCond (some o) = false →
          checkOptions (some o) = .ok (normalizeExtraSpec o)) := by
  constructor
  · intro o
    cases o with
    | none => rfl
    | some o =>
      unfold checkOptions amendedFailCond
      cases h1 : (truthy o.dest && !isStringV o.dest) <;>
        cases h2 : (truthy o.ext && !isStringV o.ext) <;>
          cases h3 : (truthy o.map && !isFunctionV o.map) <;>
            cases h4 : (!truthy o.dest && !truthy o.map) <;>
              cases h5 : truthy o.extra <;>
                cases h6 : isStringV o.extra <;>
                  cases h7 : isArrayV o.extra <;>
                    simp [h1, h2, h3, h4, h5, h6, h7, isErrorB]
  · intro o h
    unfold amendedFailCond at h
    unfold checkOptions normalizeExtraSpec
    cases h1 : (truthy o.dest && !isStringV o.dest) <;>
      cases h2 : (truthy o.ext && !isStringV o.ext) <;>
        cases h3 : (truthy o.map && !isFunctionV o.map) <;>
          cases h4 : (!truthy o.dest && !truthy o.map) <;>
            cases h5 : truthy o.extra <;>
              cases h6 : isStringV o.extra <;>
                cases h7 : isArrayV o.extra <;>
                  simp +decide [h1, h2, h3, h4, h5, h6, h7] at h ⊢

/-- C5 witness: a concrete valid options record (dest is a truthy string,
extra a truthy pattern string) passes validation with the extra pattern
normalized into a one-element array. -/
theorem checkOptions_fail_iff_amended_witness :
    checkOptions (some { dest := .vstr "d", ext := .undef, map := .undef, extra := .vstr "p", ctime := .undef })
      = .ok (normalizeExtraSpec { dest := .vstr "d", ext := .undef, map := .undef, extra := .vstr "p", ctime := .undef }) :=
  checkOptions_fail_iff_amended.2
    { dest := .vstr "d", ext := .undef, map := .undef, extra := .vstr "p", ctime := .undef }
    (by decide)

/-- Helper: the stat loop preserves length on success. -/
theorem statExtras_length {fsv : FSModel} :
    ∀ {ps : List String} {l : List Stats}, statExtras fsv ps = .ok l → l.length = ps.length := by
  intro ps
  induction ps with
  | nil => intro l h; cases h; rfl
  | cons p rest ih =>
    intro l h
    unfold statExtras at h
    cases hq : fsv p with
    | found s =>
      rw [hq] at h
      cases hr : statExtras fsv rest with
      | error e => rw [hr] at h; cases h
      | ok l' =>
        rw [hr] at h
        cases h
        simp [ih hr]
    | enoent => rw [hq] at h; cases h
    | otherErr q => rw [hq] at h; cases h

/-- Helper: a failing stat surfaces after any prefix of successful ones. -/
theorem statExtras_append_error (fsv : FSModel) :
    ∀ (pre : List String), (∀ q ∈ pre, ∃ s, fsv q = .found s) →
      ∀ (e : NewerErr) (tail : List String),
        statExtras fsv tail = .error e → statExtras fsv (pre ++ tail) = .error e := by
  intro pre
  induction pre with
  | nil => intro _ e tail h; simpa using h
  | cons q pre ih =>
    intro hpre e tail h
    obtain ⟨s, hs⟩ := hpre q (by simp)
    have hrest := ih (fun r hr => hpre r (by simp [hr])) e tail h
    simp [statExtras, hs, hrest, Except.map]

/-- C6 (amended): when the extra patterns expand to zero files the
extra-stats computation completes without error and with an absent
watermark (the run then behaves as if no extras were configured); when
they expand to at least one file it either fails or produces a present
watermark. -/
theorem extra_zero_matches_amended (globF : GlobModel) (fsv : FSModel)
    (ts : TsKey) (patterns : List String) :
    ((patterns.map globF).flatten = [] → getExtraStats globF fsv ts patterns = .ok none)
      ∧ ((patterns.map globF).flatten ≠ [] →
          (∃ e, getExtraStats globF fsv ts patterns = .error e)
            ∨ (∃ s, getExtraStats globF fsv ts patterns = .ok (some s))) := by
  constructor
  · intro h
    simp [getExtraStats, h, statExtras]
  · intro hne
    cases hst : statExtras fsv ((patterns.map globF).flatten) with
    | error e => exact .inl ⟨e, by simp [getExtraStats, hst]⟩
    | ok l =>
      cases l with
      | nil =>
        have h0 := statExtras_length hst
        rw [List.length_nil] at h0
        exact absurd (List.length_eq_zero.mp h0.symm) hne
      | cons first rest =>
        exact .inr ⟨latestStatFold ts first rest, by simp [getExtraStats, hst]⟩

/-- C6 witness: one pattern expanding to zero files yields a completed
construction-time computation with an absent watermark. -/
theorem extra_zero_matches_amended_witness :
    getExtraStats (fun _ => []) (fun _ => .enoent) .mtime ["p"] = .ok none :=
  (extra_zero_matches_amended (fun _ => []) (fun _ => .enoent) .mtime ["p"]).1 rfl

/-- Helper: the strict-greater fold keeps the first record attaining the
maximal timestamp; the list decomposes into a strictly-smaller prefix, the
fold result, and a not-greater remainder. -/
theorem latestStatFold_decomp (ts : TsKey) :
    ∀ (rest : List Stats) (first : Stats),
      ∃ pre post, first :: rest = pre ++ latestStatFold ts first rest :: post
        ∧ (∀ y ∈ first :: rest, tsGet y ts ≤ tsGet (latestStatFold ts first rest) ts)
        ∧ (∀ y ∈ pre, tsGet y ts < tsGet (latestStatFold ts first rest) ts) := by
  intro rest
  induction rest with
  | nil =>
    intro first
    exact ⟨[], [], rfl, by simp [latestStatFold], by simp⟩
  | cons x rest ih =>
    intro first
    have hstep : latestStatFold ts first (x :: rest)
        = latestStatFold ts (if tsGet x ts > tsGet first ts then x else first) rest := rfl
    by_cases hx : tsGet x ts > tsGet first ts
    · obtain ⟨pre, post, hdec, hmax, hpre⟩ := ih x
      have hfold : latestStatFold ts first (x :: rest) = latestStatFold ts x rest := by
        rw [hstep, if_pos hx]
      have hxr : tsGet x ts ≤ tsGet (latestStatFold ts x rest) ts := hmax x (by simp)
      refine ⟨first :: pre, post, ?_, ?_, ?_⟩
      · rw [hfold]; simpa using congrArg (first :: ·) hdec
      · intro y hy
        rw [hfold]
        rcases List.mem_cons.mp hy with h | h
        · subst h; exact le_of_lt (lt_of_lt_of_le hx hxr)
        · exact hmax y h
      · intro y hy
        rw [hfold]
        rcases List.mem_cons.mp hy with h | h
        · subst h; exact lt_of_lt_of_le hx hxr
        · exact hpre y h
    · obtain ⟨pre, post, hdec, hmax, hpre⟩ := ih first
      have hfold : latestStatFold ts first (x :: rest) = latestStatFold ts first rest := by
        rw [hstep, if_neg hx]
      have hxle : tsGet x ts ≤ tsGet first ts := le_of_not_lt hx
      have hfirstle : tsGet first ts ≤ tsGet (latestStatFold ts first rest) ts :=
        hmax first (by simp)
      cases pre with
      | nil =>
        have hhead : first = latestStatFold ts first rest := by
          simpa using congrArg (fun l => l.head?) hdec
        refine ⟨[], x :: rest, ?_, ?_, by simp⟩
        · rw [hfold, ← hhead]; simp
        · intro y hy
          rw [hfold]
          rcases List.mem_cons.mp hy with h | h
          · subst h; exact hfirstle
          · rcases List.mem_cons.mp h with h2 | h2
            · subst h2; exact le_trans hxle hfirstle
            · exact hmax y (by simp [h2])
      | cons q pre' =>
        have hq : first = q := by
          simpa using congrArg (fun l => l.head?) hdec
        have htail : rest = pre' ++ latestStatFold ts first rest :: post := by
          have := congrArg (fun l => l.tail) hdec
          simpa using this
        refine ⟨first :: x :: pre', post, ?_, ?_, ?_⟩
        · rw [hfold]
          simp only [List.cons_append]
          rw [← htail]
        · intro y hy
          rw [hfold]
          rcases List.mem_cons.mp hy with h | h
          · subst h; exact hfirstle
          · rcases List.mem_cons.mp h with h2 | h2
            · subst h2; exact le_trans hxle hfirstle
            · exact hmax y (by simp [h2])
        · intro y hy
          rw [hfold]
          have hfirstlt : tsGet first ts < tsGet (latestStatFold ts first rest) ts := by
            have := hpre q (by simp)
            rwa [← hq] at this
          rcases List.mem_cons.mp hy with h | h
          · subst h; exact hfirstlt
          · rcases List.mem_cons.mp h with h2 | h2
            · subst h2; exact lt_of_le_of_lt hxle hfirstlt
            · exact hpre y (by simp [h2])

/-- Helper: find? returns the head match after a prefix of non-matches. -/
theorem find?_append_first {α : Type} (p : α → Bool) :
    ∀ (pre : List α) (r : α) (post : List α),
      (∀ y ∈ pre, p y = false) → p r = true →
      (pre ++ r :: post).find? p = some r := by
  intro pre
  induction pre with
  | nil => intro r post _ hr; simp [List.find?, hr]
  | cons q pre ih =>
    intro r post hpre hr
    have hq : p q = false := hpre q (by simp)
    simp only [List.cons_append, List.find?, hq]
    exact ih r post (fun y hy => hpre y (by simp [hy])) hr

/-- Helper: the fold of the source equals the specification-side
watermark selector (first record with globally maximal timestamp). -/
theorem specWatermark_eq_fold (ts : TsKey) (first : Stats) (rest : List Stats) :
    specWatermark ts (first :: rest) = some (latestStatFold ts first rest) := by
  obtain ⟨pre, post, hdec, hmax, hpre⟩ := latestStatFold_decomp ts rest first
  have hfoldmem : latestStatFold ts first rest ∈ first :: rest := by
    rw [hdec]; exact List.mem_append_right _ (by simp)
  unfold specWatermark
  rw [hdec]
  apply find?_append_first
  · intro y hy
    by_contra hall
    have hall' : (pre ++ latestStatFold ts first rest :: post).all
        (fun z => decide (tsGet z ts ≤ tsGet y ts)) = true := by
      cases h : (pre ++ latestStatFold ts first rest :: post).all
          (fun z => decide (tsGet z ts ≤ tsGet y ts)) with
      | true => rfl
      | false => exact absurd h hall
    have hle : tsGet (latestStatFold ts first rest) ts ≤ tsGet y ts := by
      have := List.all_eq_true.mp hall' (latestStatFold ts first rest)
        (List.mem_append_right _ (by simp))
      simpa using this
    exact absurd hle (not_le_of_lt (hpre y hy))
  · rw [List.all_eq_true]
    intro z hz
    have hz' : z ∈ first :: rest := by rw [hdec]; exact hz
    simpa using hmax z hz'

/-- C7: with a non-empty list of successfully stat-ed extra files, the
computed extra watermark is exactly the first stat record whose selected
timestamp is maximal over the list (stable tie-break), and it is present;
a path that fails to stat makes the computation fail with the
ExtraStatError naming that path when the failure carries one (an ENOENT
always does) and the unknown variant otherwise. -/
theorem extra_watermark_spec :
    (∀ (globF : GlobModel) (fsv : FSModel) (ts : TsKey) (patterns : List String) (l : List Stats),
        statExtras fsv ((patterns.map globF).flatten) = .ok l →
        (patterns.map globF).flatten ≠ [] →
        getExtraStats globF fsv ts patterns = .ok (specWatermark ts l)
          ∧ (specWatermark ts l).isSome = true)
      ∧ (∀ (globF : GlobModel) (fsv : FSModel) (ts : TsKey) (patterns : List String)
            (pre : List String) (p : String) (post : List String),
          (patterns.map globF).flatten = pre ++ p :: post →
          (∀ q ∈ pre, ∃ s, fsv q = .found s) →
          (fsv p = .enoent → getExtraStats globF fsv ts patterns = .error (.extraStat (some p)))
            ∧ (∀ qp, fsv p = .otherErr qp →
                getExtraStats globF fsv ts patterns = .error (.extraStat qp))) := by
  constructor
  · intro globF fsv ts patterns l hst hne
    cases l with
    | nil =>
      have h0 := statExtras_length hst
      rw [List.length_nil] at h0
      exact absurd (List.length_eq_zero.mp h0.symm) hne
    | cons first rest =>
      rw [specWatermark_eq_fold]
      exact ⟨by simp [getExtraStats, hst], rfl⟩
  · intro globF fsv ts patterns pre p post hflat hpre
    constructor
    · intro hp
      have htail : statExtras fsv (p :: post) = .error (.extraStat (some p)) := by
        simp [statExtras, hp]
      have := statExtras_append_error fsv pre hpre _ _ htail
      simp [getExtraStats, hflat, this]
    · intro qp hp
      have htail : statExtras fsv (p :: post) = .error (.extraStat qp) := by
        simp [statExtras, hp]
      have := statExtras_append_error fsv pre hpre _ _ htail
      simp [getExtraStats, hflat, this]

/-- C7 witness: two extra files with timestamps 10 and 20; the watermark
is the (unique, hence first) record with the maximal timestamp 20. -/
theorem extra_watermark_spec_witness :
    getExtraStats (fun _ => ["a", "b"])
        (fun q => if q = "a" then .found { mtime := 10, ctime := 10, isDir := false }
                  else .found { mtime := 20, ctime := 20, isDir := false })
        .mtime ["p"]
      = .ok (specWatermark .mtime
          [{ mtime := 10, ctime := 10, isDir := false },
           { mtime := 20, ctime := 20, isDir := false }]) :=
  (extra_watermark_spec.1 (fun _ => ["a", "b"])
      (fun q => if q = "a" then .found { mtime := 10, ctime := 10, isDir := false }
                else .found { mtime := 20, ctime := 20, isDir := false })
      .mtime ["p"]
      [{ mtime := 10, ctime := 10, isDir := false },
       { mtime := 20, ctime := 20, isDir := false }]
      rfl (by decide)).1

/-- Helper: in the non-faulting region (no extra watermark, or a present
destination), _isNewer computes exactly the staleness predicate of the
specification. -/
theorem isNewer_good {eo dso : Option Stats} (ts : TsKey) (s : Stats)
    (hgood : eo = none ∨ dso ≠ none) :
    isNewer eo ts dso s = .ok (staleSpec dso eo ts s) := by
  cases eo with
  | none =>
    cases dso with
    | none => rfl
    | some d => simp [isNewer, staleSpec]
  | some ex =>
    cases dso with
    | none =>
      rcases hgood with h | h
      · cases h
      · exact absurd rfl h
    | some d =>
      by_cases hex : tsGet ex ts > tsGet d ts
      · simp [isNewer, staleSpec, hex]
      · simp [isNewer, staleSpec, hex]

/-- Helper: in shared-destination mode (no extension, no mapper, the
destination stats absent or not a directory), _getDestStats allocates
the buffer lazily and returns the pre-resolved destination stats. -/
theorem getDestStats_shared {cfg : NewerCfg} (hext : cfg.ext = none)
    (hmap : cfg.map = none) {dso : Option Stats}
    (hdir : ∀ s, dso = some s → s.isDir = false)
    (fsv : FSModel) (st : EngState) (f : SrcFile) :
    getDestStats cfg dso fsv st f
      = .ok (dso, { st with bufferedFiles := some (st.bufferedFiles.getD []) }) := by
  unfold getDestStats
  cases dso with
  | none => simp [hext, hmap]
  | some s => simp [hext, hmap, hdir s rfl]

/-- Helper: one shared-mode step on a file with stats allocates the buffer
and routes the file through _bufferPush with the specification staleness
value. -/
theorem transformStep_shared {cfg : NewerCfg} (hext : cfg.ext = none)
    (hmap : cfg.map = none) {dso eo : Option Stats}
    (hdir : ∀ s, dso = some s → s.isDir = false)
    (hgood : eo = none ∨ dso ≠ none) (fsv : FSModel) (st : EngState)
    {f : SrcFile} {s : Stats} (hs : f.stat = some s) :
    transformStep cfg dso eo fsv st f
      = .ok (bufferPush { st with bufferedFiles := some (st.bufferedFiles.getD []) } f
          (staleSpec dso eo cfg.ts s)) := by
  unfold transformStep
  rw [hs]
  dsimp only
  rw [getDestStats_shared hext hmap hdir]
  dsimp only [exceptBindOk]
  rw [isNewer_good cfg.ts s hgood]
  dsimp only [exceptBindOk]

/-- Helper: in shared mode with the _all latch set, every file with stats
is passed straight through. -/
theorem runSteps_shared_all {cfg : NewerCfg} (hext : cfg.ext = none)
    (hmap : cfg.map = none) {dso eo : Option Stats}
    (hdir : ∀ s, dso = some s → s.isDir = false)
    (hgood : eo = none ∨ dso ≠ none) (fsv : FSModel) :
    ∀ (files : List SrcFile) (st : EngState), st.all = true →
      (∀ f ∈ files, f.stat ≠ none) →
      (runSteps cfg dso eo fsv st files).1 = files
        ∧ (runSteps cfg dso eo fsv st files).2.2 = none := by
  intro files
  induction files with
  | nil => intro st _ _; exact ⟨rfl, rfl⟩
  | cons f rest ih =>
    intro st hall hstats
    obtain ⟨s, hs⟩ := Option.ne_none_iff_exists'.mp (hstats f (by simp))
    have hstep := transformStep_shared hext hmap hdir hgood fsv st hs
    have hpush : bufferPush { st with bufferedFiles := some (st.bufferedFiles.getD []) } f
        (staleSpec dso eo cfg.ts s)
        = ({ st with bufferedFiles := some (st.bufferedFiles.getD []) }, [f]) := by
      unfold bufferPush
      simp [hall]
    have hrec := ih { st with bufferedFiles := some (st.bufferedFiles.getD []) }
      (by simpa using hall) (fun g hg => hstats g (by simp [hg]))
    unfold runSteps
    rw [hstep, hpush]
    simp [hrec.1, hrec.2]

/-- Helper: in shared mode before the latch, the run emits the buffer and
everything from the first stale file onward, or nothing when no file is
stale. -/
theorem runSteps_shared_run {cfg : NewerCfg} (hext : cfg.ext = none)
    (hmap : cfg.map = none) {dso eo : Option Stats}
    (hdir : ∀ s, dso = some s → s.isDir = false)
    (hgood : eo = none ∨ dso ≠ none) (fsv : FSModel) :
    ∀ (files : List SrcFile) (st : EngState) (B : List SrcFile), st.all = false →
      st.bufferedFiles.getD [] = B →
      (∀ f ∈ files, f.stat ≠ none) →
      (runSteps cfg dso eo fsv st files).1
          = (if files.any (staleFile dso eo cfg.ts) then B ++ files else [])
        ∧ (runSteps cfg dso eo fsv st files).2.2 = none := by
  intro files
  induction files with
  | nil => intro st B _ _ _; exact ⟨by simp [runSteps], rfl⟩
  | cons f rest ih =>
    intro st B hall hbuf hstats
    obtain ⟨s, hs⟩ := Option.ne_none_iff_exists'.mp (hstats f (by simp))
    have hstale : staleFile dso eo cfg.ts f = staleSpec dso eo cfg.ts s := by
      unfold staleFile; rw [hs]
    have hstep : transformStep cfg dso eo fsv st f
        = .ok (bufferPush { st with bufferedFiles := some B } f
            (staleSpec dso eo cfg.ts s)) := by
      rw [transformStep_shared hext hmap hdir hgood fsv st hs, hbuf]
    cases hb : staleSpec dso eo cfg.ts s with
    | false =>
      have hpush : bufferPush { st with bufferedFiles := some B } f false
          = ({ st with bufferedFiles := some (B ++ [f]) }, []) := by
        unfold bufferPush
        simp [hall]
      have hrec := ih { st with bufferedFiles := some (B ++ [f]) } (B ++ [f])
        (by simpa using hall) (by simp) (fun g hg => hstats g (by simp [hg]))
      rw [hb] at hstep
      unfold runSteps
      rw [hstep, hpush]
      simp only [List.any_cons, hstale, hb, Bool.false_or, List.nil_append]
      refine ⟨?_, hrec.2⟩
      rw [hrec.1]
      by_cases hr : rest.any (staleFile dso eo cfg.ts) = true
      · simp [hr]
      · simp [hr] at hrec ⊢
    | true =>
      have hpush : bufferPush { st with bufferedFiles := some B } f true
          = ({ st with bufferedFiles := some [], all := true }, B ++ [f]) := by
        unfold bufferPush
        simp [hall]
      have hrec := runSteps_shared_all hext hmap hdir hgood fsv rest
        { st with bufferedFiles := some [], all := true } rfl
        (fun g hg => hstats g (by simp [hg]))
      rw [hb] at hstep
      unfold runSteps
      rw [hstep, hpush]
      simp only [List.any_cons, hstale, hb, Bool.true_or, if_pos]
      refine ⟨?_, hrec.2⟩
      rw [hrec.1]
      simp

/-- C1 (amended): in shared-destination mode the emission set is
all-or-nothing exactly as claimed whenever the faulting corner is not hit:
with no extra watermark, or with the shared destination stat present, the
run emits either every file (in arrival order) when some file is stale by
the specification predicate, or no file at all, with no error; but when an
extra watermark is present and the shared destination stat is absent, the
engine raises a TypeError on the first file and emits nothing, even though
every file is stale by the absent-destination rule. -/
theorem sharedDest_all_or_nothing (cfg : NewerCfg) (dso eo : Option Stats)
    (fsv : FSModel) (files : List SrcFile)
    (hext : cfg.ext = none) (hmap : cfg.map = none)
    (hdir : ∀ s, dso = some s → s.isDir = false)
    (hstats : ∀ f ∈ files, f.stat ≠ none) :
    (eo ≠ none ∧ dso = none →
        (runSteps cfg dso eo fsv initEng files).1 = []
          ∧ (runSteps cfg dso eo fsv initEng files).2.2
              = (if files.isEmpty then none else some .typeError))
      ∧ (eo = none ∨ dso ≠ none →
          (runSteps cfg dso eo fsv initEng files).1
              = (if files.any (staleFile dso eo cfg.ts) then files else [])
            ∧ (runSteps cfg dso eo fsv initEng files).2.2 = none) := by
  constructor
  · rintro ⟨heo, hdso⟩
    obtain ⟨ex, hex⟩ := Option.ne_none_iff_exists'.mp heo
    subst hdso
    cases files with
    | nil => exact ⟨rfl, rfl⟩
    | cons f rest =>
      obtain ⟨s, hs⟩ := Option.ne_none_iff_exists'.mp (hstats f (by simp))
      have hstep : transformStep cfg none eo fsv initEng f = .error .typeError := by
        unfold transformStep
        rw [hs]
        dsimp only
        rw [getDestStats_shared hext hmap (fun s h => by cases h)]
        dsimp only [exceptBindOk]
        rw [hex]
        rfl
      unfold runSteps
      rw [hstep]
      exact ⟨rfl, rfl⟩
  · intro hgood
    simpa using runSteps_shared_run hext hmap hdir hgood fsv files initEng [] rfl rfl hstats

/-- C1 witness: shared destination with timestamp 150 and sources 100,
200, 100 — the middle file is stale, so all three files are emitted in
order with no error. -/
theorem sharedDest_all_or_nothing_witness :
    (runSteps { dest := some "o", ext := none, map := none, ts := .mtime }
          (some (statOf 150)) none (fun _ => .enoent) initEng
          [fileOf "f1" 100, fileOf "f2" 200, fileOf "f3" 100]).1
        = [fileOf "f1" 100, fileOf "f2" 200, fileOf "f3" 100]
      ∧ (runSteps { dest := some "o", ext := none, map := none, ts := .mtime }
          (some (statOf 150)) none (fun _ => .enoent) initEng
          [fileOf "f1" 100, fileOf "f2" 200, fileOf "f3" 100]).2.2 = none := by
  have h := (sharedDest_all_or_nothing
      { dest := some "o", ext := none, map := none, ts := .mtime }
      (some (statOf 150)) none (fun _ => .enoent)
      [fileOf "f1" 100, fileOf "f2" 200, fileOf "f3" 100]
      rfl rfl (fun s hs => by cases hs; rfl) (by decide)).2
      (.inl rfl)
  refine ⟨?_, h.2⟩
  rw [h.1]
  decide

/-- C1 counterexample: in shared-destination mode with an absent
destination stat and a present extra watermark, the single source file is
stale by the specification predicate, yet the run emits nothing and errors
with a TypeError — refuting the claim that the first stale file triggers
emission. -/
theorem sharedDest_claim_counterexample :
    (runSteps { dest := some "o", ext := none, map := none, ts := .mtime }
          none (some (statOf 300)) (fun _ => .enoent) initEng [fileOf "f1" 100]).1 = []
      ∧ (runSteps { dest := some "o", ext := none, map := none, ts := .mtime }
          none (some (statOf 300)) (fun _ => .enoent) initEng [fileOf "f1" 100]).2.2
          = some .typeError
      ∧ staleFile none (some (statOf 300)) .mtime (fileOf "f1" 100) = true := by
  exact ⟨rfl, rfl, rfl⟩

/-- Helper: _bufferPush from the initial state emits exactly the stale
files and never changes the state. -/
theorem bufferPush_init (f : SrcFile) :
    ∀ b, bufferPush initEng f b = (initEng, if b then [f] else []) := by
  intro b
  cases b <;> rfl

/-- C3 (amended): in per-file resolution mode, over runs where every file
has stats, no destination probe fails unexpectedly, and — whenever an
extra watermark is present — every probe is found, each file is emitted if
and only if the specification staleness predicate holds for that file
alone; the engine state never changes (no buffering, no latch), so every
decision is independent of the sibling files.  (When an extra watermark is
present and a probe is absent, the engine faults instead of emitting; see
the C2 and C3 counterexamples.) -/
theorem perFile_emit_iff_stale (cfg : NewerCfg) (dso eo : Option Stats) (fsv : FSModel) :
    ∀ (files : List SrcFile), perFileMode cfg dso = true →
      (∀ f ∈ files, f.stat ≠ none) →
      (∀ f ∈ files, isOtherErr (fsv (specialStatPath cfg f.relative)) = false) →
      (eo ≠ none → ∀ f ∈ files, ∃ s, fsv (specialStatPath cfg f.relative) = .found s) →
      runSteps cfg dso eo fsv initEng files
        = (files.filter
            (fun f => staleFile (probeOpt (fsv (specialStatPath cfg f.relative))) eo cfg.ts f),
           initEng, none) := by
  intro files
  induction files with
  | nil => intro _ _ _ _; rfl
  | cons f rest ih =>
    intro hmode hstats hother hfound
    obtain ⟨s, hs⟩ := Option.ne_none_iff_exists'.mp (hstats f (by simp))
    unfold perFileMode at hmode
    have hg : getDestStats cfg dso fsv initEng f
        = (specialStat cfg fsv f.relative).map (fun d => (d, initEng)) := by
      unfold getDestStats
      simp only [hmode, if_true]
    have hstale : staleFile (probeOpt (fsv (specialStatPath cfg f.relative))) eo cfg.ts f
        = staleSpec (probeOpt (fsv (specialStatPath cfg f.relative))) eo cfg.ts s := by
      unfold staleFile; rw [hs]
    have hstep : transformStep cfg dso eo fsv initEng f
        = .ok (bufferPush initEng f
            (staleSpec (probeOpt (fsv (specialStatPath cfg f.relative))) eo cfg.ts s)) := by
      unfold transformStep
      rw [hs]
      dsimp only
      rw [hg]
      cases hpr : fsv (specialStatPath cfg f.relative) with
      | found ds =>
        have hsp : specialStat cfg fsv f.relative = .ok (some ds) := by
          unfold specialStat; rw [hpr]
        rw [hsp]
        dsimp only [Except.map, exceptBindOk]
        rw [isNewer_good cfg.ts s (.inr (by simp [probeOpt]))]
        dsimp only [exceptBindOk, probeOpt]
      | enoent =>
        have hsp : specialStat cfg fsv f.relative = .ok none := by
          unfold specialStat; rw [hpr]
        rw [hsp]
        dsimp only [Except.map, exceptBindOk]
        cases heo : eo with
        | none =>
          rw [isNewer_good cfg.ts s (.inl rfl)]
          dsimp only [exceptBindOk, probeOpt]
        | some ex =>
          obtain ⟨ds, hds⟩ := hfound (by simp [heo]) f (by simp)
          rw [hds] at hpr
          cases hpr
      | otherErr p =>
        have ho := hother f (by simp)
        rw [hpr] at ho
        simp [isOtherErr] at ho
    unfold runSteps
    rw [hstep, bufferPush_init]
    dsimp only
    rw [ih hmode (fun g hg => hstats g (by simp [hg]))
        (fun g hg => hother g (by simp [hg]))
        (fun hne g hg => hfound hne g (by simp [hg]))]
    rw [List.filter_cons]
    cases hb : staleFile (probeOpt (fsv (specialStatPath cfg f.relative))) eo cfg.ts f with
    | false =>
      rw [hb] at hstale
      rw [← hstale]
      simp [hb]
    | true =>
      rw [hb] at hstale
      rw [← hstale]
      simp [hb]

/-- C3 witness: an extension-override configuration over a destination
directory holding one up-to-date and one outdated artifact; exactly the
file with the outdated artifact is emitted, no error, state unchanged. -/
theorem perFile_emit_iff_stale_witness :
    runSteps { dest := some "dest", ext := some ".ext2", map := none, ts := .mtime }
        (some { mtime := 0, ctime := 0, isDir := true }) none
        (fun p => if p = "dest/file1.ext2" then .found (statOf 100)
                  else if p = "dest/file2.ext2" then .found (statOf 50)
                  else .enoent)
        initEng [fileOf "file1.ext1" 100, fileOf "file2.ext1" 100]
      = ([fileOf "file2.ext1" 100], initEng, none) := by
  have h := perFile_emit_iff_stale
    { dest := some "dest", ext := some ".ext2", map := none, ts := .mtime }
    (some { mtime := 0, ctime := 0, isDir := true }) none
    (fun p => if p = "dest/file1.ext2" then .found (statOf 100)
              else if p = "dest/file2.ext2" then .found (statOf 50)
              else .enoent)
    [fileOf "file1.ext1" 100, fileOf "file2.ext1" 100]
    rfl (by decide) (by decide) (fun hne => absurd rfl hne)
  rw [h]
  decide

/-- C3 counterexample: per-file mode (a mapper), an extra watermark
present, and a file whose probe is absent: the file is stale by the
specification predicate, yet nothing is emitted and the run errors —
refuting emitted-iff-stale as stated. -/
theorem perFile_claim_counterexample :
    (runSteps { dest := none, ext := none, map := some (fun r => r), ts := .mtime }
          none (some (statOf 300)) (fun _ => .enoent) initEng [fileOf "f1" 100]).1 = []
      ∧ (runSteps { dest := none, ext := none, map := some (fun r => r), ts := .mtime }
          none (some (statOf 300)) (fun _ => .enoent) initEng [fileOf "f1" 100]).2.2
          = some .typeError
      ∧ staleFile (probeOpt ((fun (_ : String) => StatOutcome.enoent) "f1"))
          (some (statOf 300)) .mtime (fileOf "f1" 100) = true := by
  exact ⟨rfl, rfl, rfl⟩

/-- Helper: every successful _transform step routes the file through
_bufferPush from either the incoming state or the incoming state with the
buffer lazily allocated. -/
theorem transformStep_ok_shape {cfg : NewerCfg} {dso eo : Option Stats}
    {fsv : FSModel} {st : EngState} {f : SrcFile} {r : EngState × List SrcFile}
    (h : transformStep cfg dso eo fsv st f = .ok r) :
    ∃ st1 b, (st1 = st ∨ st1 = { st with bufferedFiles := some (st.bufferedFiles.getD []) })
      ∧ r = bufferPush st1 f b := by
  unfold transformStep at h
  cases hstat : f.stat with
  | none => rw [hstat] at h; cases h
  | some s =>
    rw [hstat] at h
    dsimp only at h
    cases hg : getDestStats cfg dso fsv st f with
    | error e => rw [hg] at h; cases h
    | ok dpair =>
      rw [hg] at h
      dsimp only [exceptBindOk] at h
      cases hn : isNewer eo cfg.ts dpair.1 s with
      | error e => rw [hn] at h; cases h
      | ok b =>
        rw [hn] at h
        dsimp only [exceptBindOk] at h
        injection h with h
        refine ⟨dpair.2, b, ?_, h.symm⟩
        unfold getDestStats at hg
        dsimp only at hg
        split at hg
        · cases hsp : specialStat cfg fsv f.relative with
          | error e => rw [hsp] at hg; cases hg
          | ok d =>
            rw [hsp] at hg
            dsimp only [Except.map] at hg
            injection hg with hg
            rw [← hg]
            exact .inl rfl
        · injection hg with hg
          rw [← hg]
          exact .inr rfl

/-- Helper: from any state, the emitted files of a run form a sublist of
the pending buffer (when the latch is unset) followed by the remaining
input. -/
theorem runSteps_sublist_aux (cfg : NewerCfg) (dso eo : Option Stats) (fsv : FSModel) :
    ∀ (files : List SrcFile) (st : EngState),
      ((runSteps cfg dso eo fsv st files).1).Sublist
        (if st.all then files else st.bufferedFiles.getD [] ++ files) := by
  intro files
  induction files with
  | nil =>
    intro st
    cases st.all <;> simp [runSteps]
  | cons f rest ih =>
    intro st
    unfold runSteps
    cases hts : transformStep cfg dso eo fsv st f with
    | error e =>
      dsimp only
      exact List.nil_sublist _
    | ok r =>
      obtain ⟨st1, b, hst1, hr⟩ := transformStep_ok_shape hts
      have hall1 : st1.all = st.all := by
        rcases hst1 with h | h <;> subst h <;> rfl
      have hbuf1 : st1.bufferedFiles.getD [] = st.bufferedFiles.getD [] := by
        rcases hst1 with h | h <;> subst h <;> simp
      subst hr
      dsimp only
      cases hall : st.all with
      | true =>
        have hpush : bufferPush st1 f b = (st1, [f]) := by
          unfold bufferPush
          simp [hall1, hall]
        rw [hpush]
        dsimp only
        have hrec := ih st1
        rw [hall1, hall, if_pos rfl] at hrec
        rw [if_pos rfl]
        exact List.Sublist.cons₂ f hrec
      | false =>
        rw [if_neg (by simp)]
        cases b with
        | false =>
          cases hb1 : st1.bufferedFiles with
          | some buf =>
            have hbufeq : st.bufferedFiles.getD [] = buf := by
              rw [← hbuf1, hb1]; rfl
            have hpush : bufferPush st1 f false
                = ({ st1 with bufferedFiles := some (buf ++ [f]) }, []) := by
              unfold bufferPush
              simp [hall1, hall, hb1]
            rw [hpush]
            dsimp only
            have hrec := ih { st1 with bufferedFiles := some (buf ++ [f]) }
            rw [if_neg (by simp [hall1, hall])] at hrec
            simp only [List.nil_append]
            have : (buf ++ [f]) ++ rest = buf ++ (f :: rest) := by
              rw [List.append_assoc]; rfl
            simp only [Option.getD_some] at hrec
            rw [this] at hrec
            rw [hbufeq]
            exact hrec
          | none =>
            have hbufeq : st.bufferedFiles.getD [] = [] := by
              rw [← hbuf1, hb1]; rfl
            have hpush : bufferPush st1 f false = (st1, []) := by
              unfold bufferPush
              simp [hall1, hall, hb1]
            rw [hpush]
            dsimp only
            have hrec := ih st1
            rw [if_neg (by simp [hall1, hall]), hb1] at hrec
            simp only [Option.getD_none, List.nil_append] at hrec
            rw [hbufeq]
            simp only [List.nil_append]
            exact List.Sublist.trans hrec (List.sublist_cons_self f rest)
        | true =>
          cases hb1 : st1.bufferedFiles with
          | some buf =>
            have hbufeq : st.bufferedFiles.getD [] = buf := by
              rw [← hbuf1, hb1]; rfl
            have hpush : bufferPush st1 f true
                = ({ st1 with bufferedFiles := some [], all := true }, buf ++ [f]) := by
              unfold bufferPush
              simp [hall1, hall, hb1]
            rw [hpush]
            dsimp only
            have hrec := ih { st1 with bufferedFiles := some [], all := true }
            rw [if_pos rfl] at hrec
            rw [hbufeq]
            have hgoal : (buf ++ [f]) ++ (runSteps cfg dso eo fsv
                { st1 with bufferedFiles := some [], all := true } rest).1
                = buf ++ (f :: (runSteps cfg dso eo fsv
                    { st1 with bufferedFiles := some [], all := true } rest).1) := by
              rw [List.append_assoc]; rfl
            rw [hgoal]
            exact (List.Sublist.cons₂ f hrec).append_left buf
          | none =>
            have hbufeq : st.bufferedFiles.getD [] = [] := by
              rw [← hbuf1, hb1]; rfl
            have hpush : bufferPush st1 f true = (st1, [f]) := by
              unfold bufferPush
              simp [hall1, hall, hb1]
            rw [hpush]
            dsimp only
            have hrec := ih st1
            rw [if_neg (by simp [hall1, hall]), hb1] at hrec
            simp only [Option.getD_none, List.nil_append] at hrec
            rw [hbufeq]
            simp only [List.nil_append]
            exact List.Sublist.cons₂ f hrec

/-- C8: for every configuration, pre-resolved stats, filesystem and input
sequence, the emitted sequence of a whole run from the initial engine
state is an order-preserving sublist of the input sequence — files are
never duplicated or reordered, across buffering, flush and pass-all
phases, and across early error aborts. -/
theorem emitted_sublist_of_input (cfg : NewerCfg) (dso eo : Option Stats)
    (fsv : FSModel) (files : List SrcFile) :
    ((runSteps cfg dso eo fsv initEng files).1).Sublist files := by
  have h := runSteps_sublist_aux cfg dso eo fsv files initEng
  simpa [initEng] using h

/-- Helper: the push block of the promise _transform is the same decision
table as _bufferPush. -/
theorem bufferPushPromise_eq (st : EngState) (f : SrcFile) (b : Bool) :
    bufferPushPromise st f b = bufferPush st f b := by
  cases hb : st.bufferedFiles <;> cases b <;> cases hall : st.all <;>
    simp [bufferPush, bufferPushPromise, hall, hb]

/-- Helper: the promise freshness computation equals _isNewer pointwise,
including the TypeError on a null destination with extra stats present. -/
theorem isNewerPromise_eq (dest extra : Option Stats) (ts : TsKey) (s : Stats) :
    isNewerPromise dest extra ts s = isNewer extra ts dest s := by
  cases extra with
  | none => cases dest <;> rfl
  | some ex =>
    cases dest with
    | none => rfl
    | some d =>
      by_cases hex : tsGet ex ts > tsGet d ts
      · simp [isNewerPromise, isNewer, hex]
      · simp [isNewerPromise, isNewer, hex]

/-- Helper: _isNewer never faults when the destination stats are
present. -/
theorem isNewer_some_ok (eo : Option Stats) (ts : TsKey) (d s : Stats) :
    ∃ b, isNewer eo ts (some d) s = .ok b := by
  cases eo with
  | none => exact ⟨_, rfl⟩
  | some ex =>
    by_cases hex : tsGet ex ts > tsGet d ts
    · exact ⟨true, by simp [isNewer, hex]⟩
    · exact ⟨decide (tsGet s ts > tsGet d ts), by simp [isNewer, hex]⟩

/-- Helper: in per-file mode _getDestStats stats the computed path and
keeps the state. -/
theorem getDestStats_perFile {cfg : NewerCfg} {dso : Option Stats}
    (hmode : perFileMode cfg dso = true) (fsv : FSModel) (st : EngState) (f : SrcFile) :
    getDestStats cfg dso fsv st f
      = (specialStat cfg fsv f.relative).map (fun d => (d, st)) := by
  unfold perFileMode at hmode
  unfold getDestStats
  simp only [hmode, if_true]

/-- Helper: outside per-file mode _getDestStats allocates the buffer and
returns the pre-resolved destination stats. -/
theorem getDestStats_notPerFile {cfg : NewerCfg} {dso : Option Stats}
    (hmode : perFileMode cfg dso = false) (fsv : FSModel) (st : EngState) (f : SrcFile) :
    getDestStats cfg dso fsv st f
      = .ok (dso, { st with bufferedFiles := some (st.bufferedFiles.getD []) }) := by
  unfold perFileMode at hmode
  unfold getDestStats
  simp only [hmode, Bool.false_eq_true, if_false]

/-- Helper: with the destination pre-stat resolved, one promise step
equals one sync step, provided that in per-file mode with an extra
watermark the probe is found (the corner where the two diverge). -/
theorem transformStepPromise_resolved_eq {cfg : NewerCfg} {dso eo : Option Stats}
    {fsv : FSModel} (st : EngState) (f : SrcFile)
    (hfound : eo ≠ none → perFileMode cfg dso = true →
      ∃ s, fsv (specialStatPath cfg f.relative) = .found s) :
    transformStepPromise cfg fsv (.resolved dso) (.ok eo) st f
      = transformStep cfg dso eo fsv st f := by
  cases hstat : f.stat with
  | none =>
    unfold transformStepPromise transformStep
    rw [hstat]
  | some s =>
    by_cases hmode : perFileMode cfg dso = true
    · have hmode2 := hmode
      unfold perFileMode at hmode2
      unfold transformStepPromise transformStep
      rw [hstat]
      dsimp only
      simp only [hmode2, if_true]
      rw [getDestStats_perFile hmode]
      cases hpr : fsv (specialStatPath cfg f.relative) with
      | found ds =>
        have hsp : specialStat cfg fsv f.relative = .ok (some ds) := by
          unfold specialStat; rw [hpr]
        rw [hsp]
        dsimp only [Except.map, exceptBindOk]
        obtain ⟨b, hb⟩ := isNewer_some_ok eo cfg.ts ds s
        rw [isNewerPromise_eq, hb]
        dsimp only [Except.map]
        rw [bufferPushPromise_eq]
        rfl
      | enoent =>
        have hsp : specialStat cfg fsv f.relative = .ok none := by
          unfold specialStat; rw [hpr]
        rw [hsp]
        dsimp only [Except.map, exceptBindOk]
        cases heo : eo with
        | none =>
          dsimp only [isNewerPromise, isNewer, Except.map, exceptBindOk]
          rw [bufferPushPromise_eq]
        | some ex =>
          obtain ⟨ds, hds⟩ := hfound (by simp [heo]) hmode
          rw [hds] at hpr
          cases hpr
      | otherErr p =>
        have hsp : specialStat cfg fsv f.relative = .error (.unexpectedStat p) := by
          unfold specialStat; rw [hpr]
        rw [hsp]
        rfl
    · have hmode1 : perFileMode cfg dso = false := by
        simpa using hmode
      have hmode2 := hmode1
      unfold perFileMode at hmode2
      unfold transformStepPromise transformStep
      rw [hstat]
      dsimp only
      simp only [hmode2, Bool.false_eq_true, if_false]
      rw [getDestStats_notPerFile hmode1]
      dsimp only [exceptBindOk]
      rw [isNewerPromise_eq]
      cases hn : isNewer eo cfg.ts dso s with
      | error e => rfl
      | ok b =>
        dsimp only [Except.map, exceptBindOk]
        rw [bufferPushPromise_eq]

/-- Helper: with the destination pre-stat resolved, whole runs of the two
implementations coincide. -/
theorem runStepsPromise_resolved_eq {cfg : NewerCfg} {dso eo : Option Stats}
    {fsv : FSModel} :
    ∀ (files : List SrcFile) (st : EngState),
      (∀ f ∈ files, eo ≠ none → perFileMode cfg dso = true →
        ∃ s, fsv (specialStatPath cfg f.relative) = .found s) →
      runStepsPromise cfg fsv (.resolved dso) (.ok eo) st files
        = runSteps cfg dso eo fsv st files := by
  intro files
  induction files with
  | nil => intro st _; rfl
  | cons f rest ih =>
    intro st hfound
    unfold runSteps runStepsPromise
    rw [transformStepPromise_resolved_eq st f (hfound f (by simp))]
    cases hts : transformStep cfg dso eo fsv st f with
    | error e => rfl
    | ok r =>
      dsimp only
      rw [ih r.1 (fun g hg => hfound g (by simp [hg]))]

/-- Helper: with the destination pre-stat rejected ENOENT in per-file
mode (extension or mapper set), both implementations pass every file with
an all-ENOENT probe straight through: the sync version stats the per-file
path and finds nothing, the promise version takes the recovery path
without stat-ing at all. -/
theorem runStepsPromise_enoent_perFile_eq {cfg : NewerCfg} {fsv : FSModel}
    {extraP : Except NewerErr (Option Stats)}
    (hmode : perFileMode cfg none = true) :
    ∀ (files : List SrcFile) (st : EngState),
      (∀ f ∈ files, fsv (specialStatPath cfg f.relative) = .enoent) →
      runStepsPromise cfg fsv .rejectedEnoent extraP st files
        = runSteps cfg none none fsv st files := by
  intro files
  induction files with
  | nil => intro st _; rfl
  | cons f rest ih =>
    intro st henoent
    unfold perFileMode at hmode
    have hstep : transformStepPromise cfg fsv .rejectedEnoent extraP st f
        = transformStep cfg none none fsv st f := by
      unfold transformStepPromise transformStep
      cases hstat : f.stat with
      | none => rfl
      | some s =>
        dsimp only
        have hg : getDestStats cfg none fsv st f
            = (specialStat cfg fsv f.relative).map (fun d => (d, st)) := by
          unfold getDestStats
          simp only [hmode, if_true]
        rw [hg]
        have hsp : specialStat cfg fsv f.relative = .ok none := by
          unfold specialStat; rw [henoent f (by simp)]
        rw [hsp]
        dsimp only [isNewerPromise, isNewer, Except.map, exceptBindOk]
        rw [bufferPushPromise_eq]
    unfold runSteps runStepsPromise
    rw [hstep]
    cases hts : transformStep cfg none none fsv st f with
    | error e => rfl
    | ok r =>
      dsimp only
      rw [ih r.1 (fun g hg => henoent g (by simp [hg]))]

/-- Helper: with the destination pre-stat rejected ENOENT in shared mode,
both implementations emit every file with stats; the sync version
allocates the buffer and latches on the first file, the promise version
never allocates, but the emitted sequences and error positions agree. -/
theorem shared_enoent_equiv {cfg : NewerCfg} {fsv : FSModel}
    {extraP : Except NewerErr (Option Stats)}
    (hext : cfg.ext = none) (hmap : cfg.map = none) :
    ∀ (files : List SrcFile) (st : EngState),
      st.bufferedFiles.getD [] = [] →
      (runSteps cfg none none fsv st files).1
          = (runStepsPromise cfg fsv .rejectedEnoent extraP initEng files).1
        ∧ (runSteps cfg none none fsv st files).2.2
          = (runStepsPromise cfg fsv .rejectedEnoent extraP initEng files).2.2 := by
  intro files
  induction files with
  | nil => intro st _; exact ⟨rfl, rfl⟩
  | cons f rest ih =>
    intro st hbuf
    cases hstat : f.stat with
    | none =>
      have hs : transformStep cfg none none fsv st f = .error .missingStats := by
        unfold transformStep; rw [hstat]
      have hp : transformStepPromise cfg fsv .rejectedEnoent extraP initEng f
          = .error .missingStats := by
        unfold transformStepPromise; rw [hstat]
      unfold runSteps runStepsPromise
      rw [hs, hp]
      exact ⟨rfl, rfl⟩
    | some s =>
      have hsync := @transformStep_shared cfg hext hmap none none
        (fun s h => Option.noConfusion h) (Or.inl rfl) fsv st f s hstat
      have hstale : staleSpec none none cfg.ts s = true := rfl
      rw [hstale] at hsync
      have hpushs : bufferPush { st with bufferedFiles := some (st.bufferedFiles.getD []) } f true
          = ({ st with bufferedFiles := some [], all := true }, [f]) := by
        rw [hbuf]
        unfold bufferPush
        cases hall : st.all with
        | true => simp [hall]
        | false => simp [hall]
      rw [hpushs] at hsync
      have hprom : transformStepPromise cfg fsv .rejectedEnoent extraP initEng f
          = .ok (initEng, [f]) := by
        unfold transformStepPromise
        rw [hstat]
        rfl
      have hrec := ih { st with bufferedFiles := some [], all := true } (by simp)
      unfold runSteps runStepsPromise
      rw [hsync, hprom]
      dsimp only
      exact ⟨by rw [hrec.1], hrec.2⟩

/-- C9 (amended): over the same filesystem snapshot, the synchronous and
the historical promise-based implementations produce the same emitted
sequence and the same per-file error outcomes on every run in which (a)
the construction-time destination stat does not fail with a non-ENOENT
error, (b) when an extra watermark is present the destination pre-stat is
not ENOENT and every per-file probe is found, and (c) when the destination
pre-stat is ENOENT, every per-file destination probe is ENOENT as well —
which holds whenever the resolved per-file paths stay inside the missing
destination directory, but can fail when a mapper escapes it.  Outside
this region the two implementations observably diverge: construction-time
stat failures are raised at construction by the sync version but deferred
per file (or dropped entirely on an empty input) by the promise version;
with an extra watermark and an absent destination the sync version faults
while the promise recovery path drops the extras; and with the destination
pre-stat ENOENT but a mapper-escaped probe found, the sync version
consults the real probe (and may suppress the file) while the promise
version's rejected pre-stat short-circuits to emit-all. -/
theorem sync_promise_equiv_amended (cfg : NewerCfg) (fsv : FSModel)
    (dso eo : Option Stats) (files : List SrcFile)
    (hds : syncDestStat cfg fsv = .ok dso)
    (hc1 : eo ≠ none → destProbeP cfg fsv ≠ .rejectedEnoent)
    (hc2 : ∀ f ∈ files, eo ≠ none → perFileMode cfg dso = true →
      ∃ s, fsv (specialStatPath cfg f.relative) = .found s)
    (hd : destProbeP cfg fsv = .rejectedEnoent →
      ∀ f ∈ files, fsv (specialStatPath cfg f.relative) = .enoent) :
    (runSteps cfg dso eo fsv initEng files).1
        = (runStepsPromise cfg fsv (destProbeP cfg fsv) (.ok eo) initEng files).1
      ∧ (runSteps cfg dso eo fsv initEng files).2.2
        = (runStepsPromise cfg fsv (destProbeP cfg fsv) (.ok eo) initEng files).2.2 := by
  cases hdest : cfg.dest with
  | none =>
    have hdp : destProbeP cfg fsv = .resolved none := by
      unfold destProbeP; rw [hdest]
    have hdso : dso = none := by
      unfold syncDestStat at hds
      rw [hdest] at hds
      injection hds with hds
      exact hds.symm
    subst hdso
    rw [hdp, runStepsPromise_resolved_eq files initEng hc2]
    exact ⟨rfl, rfl⟩
  | some d =>
    cases hfd : fsv d with
    | found s0 =>
      have hdp : destProbeP cfg fsv = .resolved (some s0) := by
        unfold destProbeP
        rw [hdest]
        dsimp only
        simp only [hfd]
      have hdso : dso = some s0 := by
        unfold syncDestStat at hds
        rw [hdest] at hds
        dsimp only at hds
        simp only [hfd, Except.ok.injEq] at hds
        exact hds.symm
      subst hdso
      rw [hdp, runStepsPromise_resolved_eq files initEng hc2]
      exact ⟨rfl, rfl⟩
    | enoent =>
      have hdp : destProbeP cfg fsv = .rejectedEnoent := by
        unfold destProbeP
        rw [hdest]
        dsimp only
        simp only [hfd]
      have hdso : dso = none := by
        unfold syncDestStat at hds
        rw [hdest] at hds
        dsimp only at hds
        simp only [hfd, Except.ok.injEq] at hds
        exact hds.symm
      subst hdso
      have heo : eo = none := by
        by_contra h
        exact hc1 h hdp
      subst heo
      rw [hdp]
      by_cases hmode : perFileMode cfg none = true
      · rw [runStepsPromise_enoent_perFile_eq hmode files initEng (hd hdp)]
        exact ⟨rfl, rfl⟩
      · have hext : cfg.ext = none := by
          unfold perFileMode at hmode
          simp only [Bool.or_eq_true, Bool.not_eq_true] at hmode
          cases hx : cfg.ext with
          | none => rfl
          | some e => rw [hx] at hmode; simp at hmode
        have hmap : cfg.map = none := by
          unfold perFileMode at hmode
          simp only [Bool.or_eq_true, Bool.not_eq_true] at hmode
          cases hx : cfg.map with
          | none => rfl
          | some m => rw [hx] at hmode; simp at hmode
        exact shared_enoent_equiv hext hmap files initEng rfl
    | otherErr p =>
      exfalso
      unfold syncDestStat at hds
      rw [hdest] at hds
      dsimp only at hds
      simp [hfd] at hds

/-- C9 witness: a shared destination that exists; one source file; the two
implementations emit the same sequence with no error. -/
theorem sync_promise_equiv_amended_witness :
    (runSteps { dest := some "d", ext := none, map := none, ts := .mtime }
          (some (statOf 150)) none
          (fun p => if p = "d" then .found (statOf 150) else .enoent) initEng
          [fileOf "f1" 200]).1
        = (runStepsPromise { dest := some "d", ext := none, map := none, ts := .mtime }
            (fun p => if p = "d" then .found (statOf 150) else .enoent)
            (destProbeP { dest := some "d", ext := none, map := none, ts := .mtime }
              (fun p => if p = "d" then .found (statOf 150) else .enoent))
            (.ok none) initEng [fileOf "f1" 200]).1
      ∧ (runSteps { dest := some "d", ext := none, map := none, ts := .mtime }
          (some (statOf 150)) none
          (fun p => if p = "d" then .found (statOf 150) else .enoent) initEng
          [fileOf "f1" 200]).2.2
        = (runStepsPromise { dest := some "d", ext := none, map := none, ts := .mtime }
            (fun p => if p = "d" then .found (statOf 150) else .enoent)
            (destProbeP { dest := some "d", ext := none, map := none, ts := .mtime }
              (fun p => if p = "d" then .found (statOf 150) else .enoent))
            (.ok none) initEng [fileOf "f1" 200]).2.2 :=
  sync_promise_equiv_amended
    { dest := some "d", ext := none, map := none, ts := .mtime }
    (fun p => if p = "d" then .found (statOf 150) else .enoent)
    (some (statOf 150)) none [fileOf "f1" 200]
    rfl
    (fun h => absurd rfl h)
    (fun _ _ h _ => absurd rfl h)
    (fun h => absurd h (by decide))

/-- C9 counterexample, two independent divergences.  First: an extra
pattern resolving to a file whose stat fails — the sync implementation
raises the ExtraStatError at construction even though no source file is
ever written, while the promise implementation constructs successfully and
a run over the empty input finishes with no error at all.  Second: a
missing destination with a mapper escaping the destination directory to a
present, up-to-date file — the construction destination stat is ENOENT on
both sides, no extras are configured, yet the sync version stats the
mapped path (the probe resolves outside the missing directory), finds the
file fresh and suppresses it, while the promise version's rejected
pre-stat short-circuits the per-file stat entirely and emits the file;
same snapshot, different emission sets, no error on either side. -/
theorem sync_promise_equiv_counterexample :
    newerInit (some { dest := .vstr "d", ext := .undef, map := .undef, extra := .vstr "p", ctime := .undef })
        (fun _ => ["e"]) (fun q => if q = "d" then .found (statOf 150) else .enoent)
      = .error (.extraStat (some "e"))
      ∧ newerInitPromise (some { dest := .vstr "d", ext := .undef, map := .undef, extra := .vstr "p", ctime := .undef })
          (fun _ => ["e"]) (fun q => if q = "d" then .found (statOf 150) else .enoent)
        = .ok { cfg := { dest := some "d", ext := none, map := none, ts := .mtime },
                destP := .resolved (some (statOf 150)),
                extraP := .error (.extraStat (some "e")) }
      ∧ runStepsPromise { dest := some "d", ext := none, map := none, ts := .mtime }
          (fun q => if q = "d" then .found (statOf 150) else .enoent)
          (.resolved (some (statOf 150))) (.error (.extraStat (some "e"))) initEng []
        = ([], initEng, none)
      ∧ specialStatPath { dest := some "d", ext := none, map := some (fun _ => "../x"), ts := .mtime } "f1"
        = "x"
      ∧ syncDestStat { dest := some "d", ext := none, map := some (fun _ => "../x"), ts := .mtime }
          (fun q => if q = "x" then .found (statOf 200) else .enoent)
        = .ok none
      ∧ runSteps { dest := some "d", ext := none, map := some (fun _ => "../x"), ts := .mtime }
          none none (fun q => if q = "x" then .found (statOf 200) else .enoent) initEng
          [fileOf "f1" 100]
        = ([], initEng, none)
      ∧ destProbeP { dest := some "d", ext := none, map := some (fun _ => "../x"), ts := .mtime }
          (fun q => if q = "x" then .found (statOf 200) else .enoent)
        = .rejectedEnoent
      ∧ (runStepsPromise { dest := some "d", ext := none, map := some (fun _ => "../x"), ts := .mtime }
          (fun q => if q = "x" then .found (statOf 200) else .enoent)
          .rejectedEnoent (.ok none) initEng [fileOf "f1" 100]).1
        = [fileOf "f1" 100]
      ∧ (runStepsPromise { dest := some "d", ext := none, map := some (fun _ => "../x"), ts := .mtime }
          (fun q => if q = "x" then .found (statOf 200) else .enoent)
          .rejectedEnoent (.ok none) initEng [fileOf "f1" 100]).2.2
        = none := by
  exact ⟨rfl, rfl, rfl, rfl, rfl, rfl, rfl, rfl, rfl⟩

end GulpNewer
